import Mathlib

/-!
# Verification of the `mamba run` process supervisor
  (`src/libmamba/src/core/run.cpp`)

Shallow embedding of the process-run supervisor: the directory-backed
process registry, its listing/collision-check operations, the unique-name
generator with its adjective-bag/fallback algorithm, the scoped process
record, the stop-escalation policy and the orchestration of
`run_in_environment`.

Modelling conventions:
* The registry directory is a list of `FsEntry` (filename stem, extension,
  readability, parse outcome of the content).  `content = none` models a
  file whose bytes `nlohmann::json::parse` rejects (the C++ throws there).
* Randomness (`random_int`, `generate_random_alphanumeric_string`) is
  modelled by an explicit oracle: a list of `Nat` choices, one per loop
  iteration, reduced modulo the relevant pool size.
* The C++ `while (true)` loop of `generate_unique_process_name` is given
  explicit fuel; `none` means the fuel ran out (the C++ would keep
  iterating).
* Fallible C++ (exceptions) is modelled with `Except String`.
* The source's `prefixes` / `prefixes_bag` vectors are named `adjectives` /
  `Bags.bag` here (the identifier `prefixes` is unavailable); `alt_names`
  keeps its source name.  The JSON field `"prefix"` is modelled by the
  record field `pfx`.
-/

namespace MambaRun

/-- The JSON object stored in a registry record file: fields `name`,
`command`, `prefix` (modelled as `pfx`).  Note there is no `pid` field
stored in the file. -/
structure StoredRecord where
  name : String
  command : List String
  pfx : String
deriving DecidableEq

/-- One directory entry of the registry directory `~/.mamba/proc`.
`stem`/`ext` split the filename (`stem ++ ext`); `readable` models whether
`std::ifstream` can open it; `content` is the outcome of
`nlohmann::json::parse` on its bytes (`none` = unparseable/corrupt). -/
structure FsEntry where
  stem : String
  ext : String
  readable : Bool
  content : Option StoredRecord
deriving DecidableEq

/-- A record as yielded by `get_all_running_processes_info`: the stored
fields plus the synthetic `pid` attached from the filename
(`filename().replace_extension()`). -/
structure ListedRecord where
  name : String
  command : List String
  pfx : String
  pid : String
deriving DecidableEq

/-- `running_processes_info["pid"] = file_location.filename().replace_extension()`:
attach the filename stem as the synthetic `pid` field (run.cpp:150). -/
def attach_pid (e : FsEntry) (r : StoredRecord) : ListedRecord :=
  { name := r.name, command := r.command, pfx := r.pfx, pid := e.stem }

/-- `get_all_running_processes_info` (run.cpp:129-156): iterate the registry
directory; skip entries whose extension is not `.json`; skip (with a
warning) files that cannot be opened; parse the rest — `json::parse` throws
on corrupt content, modelled as `Except.error`; attach the `pid` field and
keep records passing `filter`. -/
def get_all_running_processes_info (filter : ListedRecord → Bool) :
    List FsEntry → Except String (List ListedRecord)
  | [] => .ok []
  | e :: rest =>
    if e.ext ≠ ".json" then
      get_all_running_processes_info filter rest
    else if e.readable = false then
      -- LOG_WARNING "failed to open ..."; continue
      get_all_running_processes_info filter rest
    else
      match e.content with
      | none => .error ("json parse error in " ++ e.stem ++ e.ext)
      | some r =>
        match get_all_running_processes_info filter rest with
        | .error msg => .error msg
        | .ok l =>
          let listed := attach_pid e r
          .ok (if filter listed then listed :: l else l)

/-- `is_process_name_running` (run.cpp:158-163): list with the filter
`process_info["name"] == name` and test non-emptiness. -/
def is_process_name_running (dir : List FsEntry) (name : String) :
    Except String Bool :=
  match get_all_running_processes_info (fun r => r.name == name) dir with
  | .error msg => .error msg
  | .ok l => .ok (!l.isEmpty)

/-- Pure evaluation of the name-in-use check on a well-formed directory:
some readable `.json` entry parses to a record with the given name. -/
def entryMatches (name : String) (e : FsEntry) : Bool :=
  e.ext == ".json" && e.readable &&
    (match e.content with
     | some r => r.name == name
     | none => false)

/-- `dirHasName dir name`: the registry contains a live record with this
name (the value `is_process_name_running` computes when no corrupt file
aborts it). -/
def dirHasName (dir : List FsEntry) (name : String) : Bool :=
  dir.any (entryMatches name)

/-- A well-formed registry directory: every readable `.json` entry has
parseable content. -/
def WFdir (dir : List FsEntry) : Prop :=
  ∀ e ∈ dir, e.ext = ".json" → e.readable = true → e.content ≠ none

instance (dir : List FsEntry) : Decidable (WFdir dir) := by
  unfold WFdir; infer_instance

/-! ## The unique-name generator (run.cpp:38-94) -/

/-- The source's `prefixes` vector (run.cpp:42-50), verbatim and in order —
including the duplicated `"stubborn"` entry (lines 43 and 46). -/
def adjectives : List String :=
  [ "curious", "gentle", "happy", "stubborn", "boring", "interesting",
    "funny", "weird", "surprising", "serious", "tender", "obvious",
    "great", "proud", "silent", "loud", "vacuous", "focused",
    "pretty", "slick", "tedious", "stubborn", "daring", "tenacious",
    "resilient", "rigorous", "friendly", "creative", "polite", "frank",
    "honest", "warm", "smart", "intriguing" ]

/-- The source's `alt_names` vector (run.cpp:52-54). -/
def alt_names : List String :=
  [ "program", "application", "app", "code", "blob", "binary", "script" ]

/-- The two static bags mutated across calls: `prefixes_bag` (here `bag`)
and `alt_names` (here `alts`). -/
structure Bags where
  bag : List String
  alts : List String
deriving DecidableEq

/-- The process-start value of the static bags: `prefixes_bag = prefixes`,
`alt_names` full. -/
def initBags : Bags := ⟨adjectives, alt_names⟩

/-- The alphanumeric charset used for random strings. -/
def alnum_chars : List Char :=
  "0123456789ABCDEFGHIJKLMNOPQRSTUVWXYZabcdefghijklmnopqrstuvwxyz".toList

/-- Modelled from the spec: `generate_random_alphanumeric_string`
(declared in `util_random.hpp`, whose source is not provided) returns a
random alphanumeric string of the requested length; the random draws are
modelled by decoding the oracle `choice` in base 62. -/
def generate_random_alphanumeric_string (len : Nat) (choice : Nat) : String :=
  String.mk ((List.range len).map (fun i => alnum_chars.getD (choice / 62 ^ i % 62) '0'))

/-- `fmt::format("{}_{}", selected_prefix, selected_name)` (run.cpp:90). -/
def combine (adj noun : String) : String := adj ++ "_" ++ noun

/-- The `while (true)` loop body of `generate_unique_process_name`
(run.cpp:58-93), with explicit fuel and one oracle choice per iteration.
`sel` is the local `selected_name` (initialized to `program_name` at call
entry, retained across iterations); `bags` are the static pools.
* bag non-empty: pop a random adjective, candidate `adj_sel`;
* else alts non-empty: pop a random fallback noun, refill the bag to the
  full `adjectives` list, `continue` with the noun as `sel`;
* else: random 8-char alphanumeric adjective with the original
  `program_name` as noun.
A candidate is returned iff `is_process_name_running` is false on it. -/
def gen_loop (isRunning : String → Bool) (program_name : String) :
    Nat → List Nat → Bags → String → Option (String × Bags)
  | 0, _, _, _ => none
  | fuel + 1, choices, bags, sel =>
    let c := choices.headD 0
    let rest := choices.tail
    if bags.bag.isEmpty = false then
      let i := c % bags.bag.length
      let adj := bags.bag.getD i ""
      let bags' : Bags := { bags with bag := bags.bag.eraseIdx i }
      let cand := combine adj sel
      if isRunning cand then gen_loop isRunning program_name fuel rest bags' sel
      else some (cand, bags')
    else if bags.alts.isEmpty = false then
      let i := c % bags.alts.length
      let nm := bags.alts.getD i ""
      gen_loop isRunning program_name fuel rest ⟨adjectives, bags.alts.eraseIdx i⟩ nm
    else
      let cand := combine (generate_random_alphanumeric_string 8 c) program_name
      if isRunning cand then gen_loop isRunning program_name fuel rest bags program_name
      else some (cand, bags)

/-- `generate_unique_process_name` (run.cpp:38-94): run the loop with the
local `selected_name` initialized to `program_name`, against the current
state of the static bags. -/
def generate_unique_process_name (isRunning : String → Bool)
    (program_name : String) (fuel : Nat) (choices : List Nat) (bags : Bags) :
    Option (String × Bags) :=
  gen_loop isRunning program_name fuel choices bags program_name

/-! ## Stop actions (reproc collaborator) and the signal handler
    (run.cpp:390-407) -/

/-- reproc's stop kinds (`reproc::stop`): `noop`, `wait`, `terminate`,
`kill`, in declaration order; a default-constructed action is `noop`. -/
inductive StopKind
  | noop
  | wait
  | terminate
  | kill
deriving DecidableEq

/-- `reproc::stop_action`: a stop kind with its bounded wait in
milliseconds. -/
structure StopAction where
  action : StopKind
  timeout_ms : Nat
deriving DecidableEq

/-- `reproc::stop_actions`: up to three escalation steps. -/
structure StopActions where
  first : StopAction
  second : StopAction
  third : StopAction
deriving DecidableEq

/-- A default-constructed `reproc::stop_action`: `noop` with timeout 0. -/
def noop_action : StopAction := ⟨StopKind.noop, 0⟩

/-- The value of `opt.stop` in `run_in_environment`: `reproc::options opt;`
default-constructs `opt.stop` and the function never assigns it, so the
post-drain `proc.stop(opt.stop)` (run.cpp:418) receives three `noop`
actions. -/
def default_options_stop : StopActions := ⟨noop_action, noop_action, noop_action⟩

/-- The stop actions the SIGTERM handler builds (run.cpp:399-404):
`sa.first = {terminate, 3000ms}`, `sa.second = {kill, 3000ms}`, `sa.third`
left default-constructed. -/
def sigterm_stop_actions : StopActions :=
  { first := ⟨StopKind.terminate, 3000⟩
    second := ⟨StopKind.kill, 3000⟩
    third := noop_action }

/-- Modelled from the spec: the spawn-primitive collaborator's
`stop(escalation-actions)` (§6, §4.4 — reproc's `process::stop`, not part
of this repository): actions are attempted in order, a `noop` action is
skipped, and after performing an action the child is waited on for that
action's bound; later actions run only if the child has not exited within
the bound.  `exitsWithin a t` says whether the child exits within `t` ms
of action `a` being applied.  The result lists the actions actually
applied, in order. -/
def stop_escalation (exitsWithin : StopKind → Nat → Bool) :
    List StopAction → List StopKind
  | [] => []
  | a :: rest =>
    if a.action = StopKind.noop then stop_escalation exitsWithin rest
    else if exitsWithin a.action a.timeout_ms then [a.action]
    else a.action :: stop_escalation exitsWithin rest

/-- The actions a `proc.stop(sa)` call applies to the child. -/
def applied_stop_actions (exitsWithin : StopKind → Nat → Bool)
    (sa : StopActions) : List StopKind :=
  stop_escalation exitsWithin [sa.first, sa.second, sa.third]

/-- The stop requests `run_in_environment` issues against the child: the
SIGTERM-handler request (when a termination signal arrives, run.cpp:404)
followed by the unconditional post-drain `proc.stop(opt.stop)` call
(run.cpp:418). -/
def run_stop_requests (sigterm_received : Bool) : List StopActions :=
  (if sigterm_received then [sigterm_stop_actions] else []) ++ [default_options_stop]

/-! ## The scoped process record (run.cpp:165-200) -/

/-- `ScopedProcFile::ScopedProcFile` (run.cpp:165-188): create/truncate
`proc_dir() / "<getpid()>.json"` and write the JSON object with fields
`name`, `command`, `prefix` (and no `pid` field).  Modelled as replacing
any existing entry with that filename and appending the fresh one. -/
def scoped_proc_file_write (dir : List FsEntry) (pid : Nat) (name : String)
    (command : List String) (pfx : String) : List FsEntry :=
  (dir.filter (fun e => !(e.stem == toString pid && e.ext == ".json")))
    ++ [⟨toString pid, ".json", true, some ⟨name, command, pfx⟩⟩]

/-! ## `run_in_environment` (run.cpp:245-427) -/

/-- The inputs and environment outcomes `run_in_environment` depends on.
Filesystem and process-spawn outcomes are explicit oracles:
`lock_ok` is whether `lock_proc_dir()` succeeds (run.cpp:339),
`dir_ok` is the value of
`fs::is_directory(proc_dir()) && path::is_writable(proc_dir())`
(run.cpp:370), `spawn_ok` is whether `proc.start`/`proc.pid` succeed
(run.cpp:380-384), `child_status` the status `proc.stop` reports
(run.cpp:418). -/
structure RunInputs where
  dir : List FsEntry
  specific_process_name : String
  base_name : String
  raw_command : List String
  target_pfx : String
  supervisor_pid : Nat
  child_pid : Nat
  lock_ok : Bool
  dir_ok : Bool
  spawn_ok : Bool
  child_status : Int
  fuel : Nat
  choices : List Nat
  bags : Bags

/-- Observable events of one `run_in_environment` execution, in order. -/
inductive RunEvent
  | lockAcquired
  | lockReleased
  | nameResolved (name : String)
  | recordWritten (pid : Nat) (name : String)
  | childSpawned (pid : Nat)
  | childExited (status : Int)
  | recordRemoved (pid : Nat)
deriving DecidableEq

/-- Outcome of a run: its event trace, its result (`Except` models thrown
exceptions; `.ok` is the returned status), and the registry directory
contents while the child runs. -/
structure RunOutcome where
  trace : List RunEvent
  result : Except String Int
  dirAfter : List FsEntry

/-- The name-resolution step of `run_in_environment` (run.cpp:341-365),
executed under the directory lock: an empty `specific_process_name` means
generate a unique name; otherwise fail if the explicit name is running,
else use it verbatim.  (`is_process_name_running` is evaluated as
`dirHasName`; the caller has already listed the directory successfully, so
the two agree — see `is_process_name_running_of_WF`.) -/
def name_resolution (inp : RunInputs) : Except String (Option (String × Bags)) :=
  if inp.specific_process_name = "" then
    .ok (generate_unique_process_name (fun n => dirHasName inp.dir n)
          inp.base_name inp.fuel inp.choices inp.bags)
  else if dirHasName inp.dir inp.specific_process_name then
    .error ("Another process with name '" ++ inp.specific_process_name
            ++ "' is currently running.")
  else
    .ok (some (inp.specific_process_name, inp.bags))

/-- `run_in_environment` (run.cpp:245-427), POSIX path, as a trace-producing
state machine:
1. list the registry for the `LOG_DEBUG` dump (run.cpp:263) — a corrupt
   record file makes this throw out of the function;
2. acquire the proc-dir lock (run.cpp:339) — may throw;
3. resolve the process name under the lock (run.cpp:341-365) — an explicit
   name already in use throws (the lock is released while unwinding);
4. if the proc dir is a writable directory, construct the `ScopedProcFile`
   (record written, after which the moved-in lock is destroyed — the lock
   is released at the end of the constructor); otherwise no record is
   written and the lock object stays alive to the end of the block;
5. spawn the child (`proc.start`); on failure return 1 (run.cpp:384-388);
   otherwise drain and stop, returning the child's status;
6. scope exit: the `ScopedProcFile` destructor re-acquires the lock and
   removes the record (run.cpp:190-200); in the untracked path the
   still-held lock is released only here, after the child has exited. -/
def run_in_environment (inp : RunInputs) : RunOutcome :=
  match get_all_running_processes_info (fun _ => true) inp.dir with
  | .error msg => ⟨[], .error msg, inp.dir⟩
  | .ok _ =>
    if inp.lock_ok = false then
      ⟨[], .error "'mamba run' failed to lock", inp.dir⟩
    else
      match name_resolution inp with
      | .error msg => ⟨[.lockAcquired, .lockReleased], .error msg, inp.dir⟩
      | .ok none =>
        -- model artifact: the generation loop ran out of fuel (the C++
        -- would keep iterating)
        ⟨[.lockAcquired, .lockReleased], .error "name generation fuel exhausted", inp.dir⟩
      | .ok (some (process_name, _)) =>
        let dirAfter :=
          if inp.dir_ok then
            scoped_proc_file_write inp.dir inp.supervisor_pid process_name
              inp.raw_command inp.target_pfx
          else inp.dir
        let regEvents : List RunEvent :=
          if inp.dir_ok then
            [.recordWritten inp.supervisor_pid process_name, .lockReleased]
          else []
        let spawnEvents : List RunEvent :=
          if inp.spawn_ok then
            [.childSpawned inp.child_pid, .childExited inp.child_status]
          else []
        let teardown : List RunEvent :=
          if inp.dir_ok then
            [.lockAcquired, .recordRemoved inp.supervisor_pid, .lockReleased]
          else [.lockReleased]
        ⟨[.lockAcquired, .nameResolved process_name] ++ regEvents
           ++ spawnEvents ++ teardown,
         .ok (if inp.spawn_ok then inp.child_status else 1),
         dirAfter⟩

/-- `spawn_while_locked tr held` scans the trace tracking whether the
directory lock is held, and reports whether some child spawn happens while
it is. -/
def spawn_while_locked : List RunEvent → Bool → Bool
  | [], _ => false
  | RunEvent.lockAcquired :: tr, _ => spawn_while_locked tr true
  | RunEvent.lockReleased :: tr, _ => spawn_while_locked tr false
  | RunEvent.childSpawned _ :: tr, held => held || spawn_while_locked tr held
  | RunEvent.nameResolved _ :: tr, held => spawn_while_locked tr held
  | RunEvent.recordWritten _ _ :: tr, held => spawn_while_locked tr held
  | RunEvent.childExited _ :: tr, held => spawn_while_locked tr held
  | RunEvent.recordRemoved _ :: tr, held => spawn_while_locked tr held

/-- Boolean success of a listing. -/
def listingOk (x : Except String (List ListedRecord)) : Bool :=
  match x with
  | .ok _ => true
  | .error _ => false

/-- The records a successful listing yields (`[]` when the listing threw). -/
def listing_or_nil (dir : List FsEntry) : List ListedRecord :=
  match get_all_running_processes_info (fun _ => true) dir with
  | .ok l => l
  | .error _ => []

/-- `k` sequential calls of `generate_unique_process_name` against a fixed
registry in which no candidate collides (`isRunning` constantly false),
each call given one oracle choice; the bag state is threaded from call to
call as the C++ statics are. -/
def resolve_seq (base : String) : List Nat → Bags → Option Bags
  | [], bags => some bags
  | c :: cs, bags =>
    match generate_unique_process_name (fun _ => false) base 1 [c] bags with
    | some (_, bags') => resolve_seq base cs bags'
    | none => none

/-! ## Generator lemmas -/

/-- Any name the generation loop returns tested negative on the
`is_process_name_running` check that guarded its return. -/
theorem gen_loop_not_running (isRunning : String → Bool) (pn : String) :
    ∀ (fuel : Nat) (choices : List Nat) (bags : Bags) (sel : String)
      (nm : String) (b' : Bags),
      gen_loop isRunning pn fuel choices bags sel = some (nm, b') →
      isRunning nm = false := by
  intro fuel
  induction fuel with
  | zero => intro choices bags sel nm b' h; simp [gen_loop] at h
  | succ n ih =>
    intro choices bags sel nm b' h
    simp only [gen_loop] at h
    split at h
    · split at h
      · exact ih _ _ _ _ _ h
      · rename_i hrun
        rw [Option.some.injEq, Prod.mk.injEq] at h
        obtain ⟨rfl, -⟩ := h
        simpa using hrun
    · split at h
      · exact ih _ _ _ _ _ h
      · split at h
        · exact ih _ _ _ _ _ h
        · rename_i hrun
          rw [Option.some.injEq, Prod.mk.injEq] at h
          obtain ⟨rfl, -⟩ := h
          simpa using hrun

/-- One no-collision resolution with a non-empty adjective bag pops the
chosen adjective, combines it with the base name, and leaves the noun pool
untouched. -/
theorem resolve_once_pop (base : String) (c : Nat) (bags : Bags)
    (h : bags.bag ≠ []) :
    generate_unique_process_name (fun _ => false) base 1 [c] bags
      = some (combine (bags.bag.getD (c % bags.bag.length) "") base,
              ⟨bags.bag.eraseIdx (c % bags.bag.length), bags.alts⟩) := by
  unfold generate_unique_process_name
  simp [gen_loop, List.isEmpty_eq_false, h]

/-- Sequential no-collision resolutions each consume exactly one adjective
from the bag and never touch the noun pool, as long as the bag lasts. -/
theorem resolve_seq_consumes (base : String) :
    ∀ (cs : List Nat) (bags : Bags), cs.length ≤ bags.bag.length →
      ∃ bags', resolve_seq base cs bags = some bags'
        ∧ bags'.bag.length = bags.bag.length - cs.length
        ∧ bags'.alts = bags.alts := by
  intro cs
  induction cs with
  | nil => intro bags _; exact ⟨bags, rfl, by simp, rfl⟩
  | cons c cs ih =>
    intro bags h
    have hne : bags.bag ≠ [] := by
      intro he
      rw [he] at h
      simp at h
    have hpos : 0 < bags.bag.length := List.length_pos.mpr hne
    have hlt : c % bags.bag.length < bags.bag.length := Nat.mod_lt _ hpos
    have herase : (bags.bag.eraseIdx (c % bags.bag.length)).length
        = bags.bag.length - 1 := List.length_eraseIdx_of_lt hlt
    have hrec : cs.length ≤ (bags.bag.eraseIdx (c % bags.bag.length)).length := by
      rw [herase]
      simp only [List.length_cons] at h
      omega
    obtain ⟨bags', hb', hlen', halts'⟩ := ih ⟨bags.bag.eraseIdx (c % bags.bag.length), bags.alts⟩ hrec
    refine ⟨bags', ?_, ?_, halts'⟩
    · rw [resolve_seq, resolve_once_pop base c bags hne]
      exact hb'
    · rw [hlen']
      simp only [List.length_cons]
      simp only at herase
      omega

/-! ## Listing lemmas -/

/-- An entry whose extension is not `.json` is skipped by the listing. -/
theorem listing_cons_skip_ext (f : ListedRecord → Bool) (e : FsEntry)
    (dir : List FsEntry) (h : e.ext ≠ ".json") :
    get_all_running_processes_info f (e :: dir)
      = get_all_running_processes_info f dir := by
  simp only [get_all_running_processes_info]
  rw [if_pos h]

/-- An unreadable entry is skipped (with a warning) by the listing. -/
theorem listing_cons_skip_unreadable (f : ListedRecord → Bool) (e : FsEntry)
    (dir : List FsEntry) (h : e.readable = false) :
    get_all_running_processes_info f (e :: dir)
      = get_all_running_processes_info f dir := by
  simp [get_all_running_processes_info, h]

/-- A readable `.json` entry with parseable content contributes its record
(with the `pid` attached) when the filter passes. -/
theorem listing_cons_parsed (f : ListedRecord → Bool) (e : FsEntry)
    (dir : List FsEntry) (r : StoredRecord) (hext : e.ext = ".json")
    (hread : e.readable = true) (hc : e.content = some r) :
    get_all_running_processes_info f (e :: dir)
      = match get_all_running_processes_info f dir with
        | .error msg => .error msg
        | .ok l => .ok (if f (attach_pid e r) then attach_pid e r :: l else l) := by
  simp only [get_all_running_processes_info]
  rw [if_neg (by simp [hext]), if_neg (by simp [hread]), hc]

/-- A readable `.json` entry with corrupt content makes the listing throw. -/
theorem listing_cons_corrupt (f : ListedRecord → Bool) (e : FsEntry)
    (dir : List FsEntry) (hext : e.ext = ".json") (hread : e.readable = true)
    (hc : e.content = none) :
    get_all_running_processes_info f (e :: dir)
      = .error ("json parse error in " ++ e.stem ++ e.ext) := by
  simp only [get_all_running_processes_info]
  rw [if_neg (by simp [hext]), if_neg (by simp [hread]), hc]

/-- On a well-formed directory the listing with the name filter succeeds
and its emptiness computes `dirHasName`. -/
theorem listing_name_of_WF (name : String) :
    ∀ dir : List FsEntry, WFdir dir →
      ∃ l, get_all_running_processes_info (fun r => r.name == name) dir = .ok l
        ∧ (!l.isEmpty) = dirHasName dir name := by
  intro dir
  induction dir with
  | nil => intro _; exact ⟨[], rfl, by simp [dirHasName]⟩
  | cons e rest ih =>
    intro hwf
    have hwfr : WFdir rest := fun e' he' => hwf e' (List.mem_cons_of_mem _ he')
    obtain ⟨l, hl, hemp⟩ := ih hwfr
    by_cases hext : e.ext = ".json"
    · by_cases hread : e.readable = true
      · have hcontent : e.content ≠ none := hwf e (List.mem_cons_self _ _) hext hread
        cases hc : e.content with
        | none => exact absurd hc hcontent
        | some r =>
          rw [listing_cons_parsed _ e rest r hext hread hc, hl]
          by_cases hm : (r.name == name) = true
          · refine ⟨attach_pid e r :: l, by simp [attach_pid, hm], ?_⟩
            simp only [dirHasName, List.any_cons]
            have : entryMatches name e = true := by
              simp [entryMatches, hext, hread, hc, hm]
            rw [this]
            simp
          · rw [Bool.not_eq_true] at hm
            refine ⟨l, by simp [attach_pid, hm], ?_⟩
            simp only [dirHasName, List.any_cons]
            have : entryMatches name e = false := by
              simp [entryMatches, hc, hm]
            rw [this]
            simpa [dirHasName] using hemp
      · rw [Bool.not_eq_true] at hread
        rw [listing_cons_skip_unreadable _ e rest hread]
        refine ⟨l, hl, ?_⟩
        simp only [dirHasName, List.any_cons]
        have : entryMatches name e = false := by
          simp [entryMatches, hread]
        rw [this]
        simpa [dirHasName] using hemp
    · rw [listing_cons_skip_ext _ e rest hext]
      refine ⟨l, hl, ?_⟩
      simp only [dirHasName, List.any_cons]
      have : entryMatches name e = false := by
        simp [entryMatches, hext]
      rw [this]
      simpa [dirHasName] using hemp

/-- `is_process_name_running` on a well-formed directory computes
`dirHasName`. -/
theorem is_process_name_running_of_WF (name : String) (dir : List FsEntry)
    (hwf : WFdir dir) :
    is_process_name_running dir name = Except.ok (dirHasName dir name) := by
  obtain ⟨l, hl, hemp⟩ := listing_name_of_WF name dir hwf
  simp only [is_process_name_running, hl, hemp]

/-- On a well-formed registry directory the listing never throws. -/
theorem listing_ok_of_WF (f : ListedRecord → Bool) :
    ∀ dir : List FsEntry, WFdir dir →
      ∃ l, get_all_running_processes_info f dir = .ok l := by
  intro dir
  induction dir with
  | nil => intro _; exact ⟨[], rfl⟩
  | cons e rest ih =>
    intro hwf
    have hwfr : WFdir rest := fun e' he' => hwf e' (List.mem_cons_of_mem _ he')
    obtain ⟨l, hl⟩ := ih hwfr
    by_cases hext : e.ext = ".json"
    · by_cases hread : e.readable = true
      · cases hc : e.content with
        | none => exact absurd hc (hwf e (List.mem_cons_self _ _) hext hread)
        | some r =>
          rw [listing_cons_parsed _ e rest r hext hread hc, hl]
          exact ⟨_, rfl⟩
      · rw [Bool.not_eq_true] at hread
        rw [listing_cons_skip_unreadable _ e rest hread]
        exact ⟨l, hl⟩
    · rw [listing_cons_skip_ext _ e rest hext]
      exact ⟨l, hl⟩

/-- A listing of a concatenation of directory segments concatenates the
listings, provided both succeed. -/
theorem listing_append_ok (f : ListedRecord → Bool) :
    ∀ (d1 : List FsEntry) (l1 : List ListedRecord) (d2 : List FsEntry)
      (l2 : List ListedRecord),
      get_all_running_processes_info f d1 = .ok l1 →
      get_all_running_processes_info f d2 = .ok l2 →
      get_all_running_processes_info f (d1 ++ d2) = .ok (l1 ++ l2) := by
  intro d1
  induction d1 with
  | nil =>
    intro l1 d2 l2 h1 h2
    simp only [get_all_running_processes_info, Except.ok.injEq] at h1
    simp [← h1, h2]
  | cons e rest ih =>
    intro l1 d2 l2 h1 h2
    rw [List.cons_append]
    by_cases hext : e.ext = ".json"
    · by_cases hread : e.readable = true
      · cases hc : e.content with
        | none =>
          rw [listing_cons_corrupt _ e rest hext hread hc] at h1
          exact absurd h1 (by simp)
        | some r =>
          rw [listing_cons_parsed _ e rest r hext hread hc] at h1
          rw [listing_cons_parsed _ e (rest ++ d2) r hext hread hc]
          revert h1
          cases hrest : get_all_running_processes_info f rest with
          | error msg => intro h1; exact absurd h1 (by simp)
          | ok l =>
            intro h1
            simp only [Except.ok.injEq] at h1
            rw [ih _ _ _ hrest h2]
            subst h1
            by_cases hf : f (attach_pid e r) = true
            · simp [hf]
            · rw [Bool.not_eq_true] at hf
              simp [hf]
      · rw [Bool.not_eq_true] at hread
        rw [listing_cons_skip_unreadable _ e rest hread] at h1
        rw [listing_cons_skip_unreadable _ e (rest ++ d2) hread]
        exact ih _ _ _ h1 h2
    · rw [listing_cons_skip_ext _ e rest hext] at h1
      rw [listing_cons_skip_ext _ e (rest ++ d2) hext]
      exact ih _ _ _ h1 h2

/-- Every record a listing yields comes from a readable, parseable `.json`
entry of the directory, carries that entry's stored fields, its filename
stem as `pid`, and passes the filter. -/
theorem listing_mem_source (f : ListedRecord → Bool) :
    ∀ (dir : List FsEntry) (l : List ListedRecord),
      get_all_running_processes_info f dir = .ok l →
      ∀ x ∈ l, ∃ e, e ∈ dir ∧ e.ext = ".json" ∧ e.readable = true ∧
        ∃ r, e.content = some r ∧ x = attach_pid e r ∧ f x = true := by
  intro dir
  induction dir with
  | nil =>
    intro l h x hx
    simp only [get_all_running_processes_info, Except.ok.injEq] at h
    subst h
    simp at hx
  | cons e rest ih =>
    intro l h x hx
    by_cases hext : e.ext = ".json"
    · by_cases hread : e.readable = true
      · cases hc : e.content with
        | none =>
          rw [listing_cons_corrupt _ e rest hext hread hc] at h
          exact absurd h (by simp)
        | some r =>
          rw [listing_cons_parsed _ e rest r hext hread hc] at h
          revert h
          cases hrest : get_all_running_processes_info f rest with
          | error msg => intro h; exact absurd h (by simp)
          | ok l' =>
            intro h
            simp only [Except.ok.injEq] at h
            subst h
            by_cases hf : f (attach_pid e r) = true
            · rw [if_pos hf] at hx
              rcases List.mem_cons.mp hx with hx | hx
              · subst hx
                exact ⟨e, List.mem_cons_self _ _, hext, hread, r, hc, rfl, hf⟩
              · obtain ⟨e', he', rest'⟩ := ih _ hrest x hx
                exact ⟨e', List.mem_cons_of_mem _ he', rest'⟩
            · rw [Bool.not_eq_true] at hf
              rw [hf] at hx
              simp only [Bool.false_eq_true, if_false] at hx
              obtain ⟨e', he', rest'⟩ := ih _ hrest x hx
              exact ⟨e', List.mem_cons_of_mem _ he', rest'⟩
      · rw [Bool.not_eq_true] at hread
        rw [listing_cons_skip_unreadable _ e rest hread] at h
        obtain ⟨e', he', rest'⟩ := ih _ h x hx
        exact ⟨e', List.mem_cons_of_mem _ he', rest'⟩
    · rw [listing_cons_skip_ext _ e rest hext] at h
      obtain ⟨e', he', rest'⟩ := ih _ h x hx
      exact ⟨e', List.mem_cons_of_mem _ he', rest'⟩

/-- `List.getD` at an in-bounds index returns an element of the list. -/
theorem getD_mem {α : Type} (l : List α) (i : Nat) (d : α) (h : i < l.length) :
    l.getD i d ∈ l := by
  rw [List.getD_eq_getElem l d h]
  exact List.getElem_mem h

/-! ## C1 — uniqueness of generated names -/

/-- C1 (amended): every name `generate_unique_process_name` returns tested
negative on the `is_process_name_running` check at the instant of its final
check (on a well-formed registry the check evaluates to `dirHasName`);
pairwise distinctness of sequential resolutions does NOT hold (see the
counterexample: the adjective pool contains `"stubborn"` twice). -/
theorem generate_unique_name_not_in_registry
    (dir : List FsEntry) (base : String) (fuel : Nat) (choices : List Nat)
    (bags bags' : Bags) (nm : String)
    (hgen : generate_unique_process_name (fun n => dirHasName dir n) base fuel
              choices bags = some (nm, bags')) :
    dirHasName dir nm = false
    ∧ (WFdir dir → is_process_name_running dir nm = Except.ok false) := by
  have h : dirHasName dir nm = false :=
    gen_loop_not_running (fun n => dirHasName dir n) base fuel choices
      bags base nm bags' hgen
  exact ⟨h, fun hwf => by rw [is_process_name_running_of_WF nm dir hwf, h]⟩

/-- Witness: on an empty registry, one resolution of base name `echo` with
oracle choice 0 returns `curious_echo`, which is not in the registry. -/
theorem generate_unique_name_not_in_registry_witness :
    dirHasName [] "curious_echo" = false
    ∧ (WFdir [] → is_process_name_running [] "curious_echo" = Except.ok false) :=
  generate_unique_name_not_in_registry [] "echo" 1 [0] initBags
    ⟨adjectives.eraseIdx 0, alt_names⟩ "curious_echo" (by decide)

/-- The bag state after one resolution popped the adjective at index 3
(the first `"stubborn"`). -/
def bagsAfterFirstStubborn : Bags := ⟨adjectives.eraseIdx 3, alt_names⟩

/-- C1 counterexample: against one and the same (empty) registry state, two
sequential resolutions of base name `echo` can both return
`stubborn_echo` — the adjective pool holds `"stubborn"` at indices 3 and
21, so consuming without replacement still yields the same adjective twice,
and the returned names are not pairwise distinct. -/
theorem generate_unique_name_distinct_counterexample :
    (generate_unique_process_name (fun n => dirHasName [] n) "echo" 1 [3] initBags
       = some ("stubborn_echo", bagsAfterFirstStubborn))
    ∧ (generate_unique_process_name (fun n => dirHasName [] n) "echo" 1 [20]
         bagsAfterFirstStubborn
       = some ("stubborn_echo", ⟨(adjectives.eraseIdx 3).eraseIdx 20, alt_names⟩)) := by
  decide

/-! ## C3 — listing robustness -/

/-- C3 (amended): the listing skips any non-`.json` or unreadable
(unopenable) entry with a warning and returns the remaining records, and it
succeeds on every directory whose readable `.json` files all parse; a file
whose content does not parse, however, aborts the whole listing (see the
counterexample). -/
theorem get_all_running_processes_skip_behavior :
    (∀ (f : ListedRecord → Bool) (e : FsEntry) (dir : List FsEntry),
       e.ext ≠ ".json" ∨ e.readable = false →
       get_all_running_processes_info f (e :: dir)
         = get_all_running_processes_info f dir)
    ∧ (∀ (f : ListedRecord → Bool) (dir : List FsEntry), WFdir dir →
       listingOk (get_all_running_processes_info f dir) = true) := by
  constructor
  · intro f e dir h
    rcases h with h | h
    · exact listing_cons_skip_ext f e dir h
    · exact listing_cons_skip_unreadable f e dir h
  · intro f dir hwf
    obtain ⟨l, hl⟩ := listing_ok_of_WF f dir hwf
    simp [listingOk, hl]

/-- Witness: an unreadable record file is skipped, and a directory of one
parseable record lists successfully. -/
theorem get_all_running_processes_skip_behavior_witness :
    (get_all_running_processes_info (fun _ => true)
        (⟨"7", ".json", false, none⟩ :: [])
      = get_all_running_processes_info (fun _ => true) [])
    ∧ listingOk (get_all_running_processes_info (fun _ => true)
        [⟨"8", ".json", true, some ⟨"n", [], "p"⟩⟩]) = true :=
  ⟨get_all_running_processes_skip_behavior.1 _ _ _ (Or.inr rfl),
   get_all_running_processes_skip_behavior.2 _ _ (by decide)⟩

/-- C3 counterexample: a single record file whose content does not parse
makes `get_all_running_processes_info` fail (the `nlohmann::json::parse`
exception at run.cpp:149 is uncaught), rather than being skipped with a
warning. -/
theorem listing_corrupt_aborts_counterexample :
    get_all_running_processes_info (fun _ => true) [⟨"123", ".json", true, none⟩]
      = Except.error "json parse error in 123.json"
    ∧ listingOk (get_all_running_processes_info (fun _ => true)
        [⟨"123", ".json", true, none⟩]) = false :=
  ⟨rfl, rfl⟩

/-! ## C4 — pool degradation -/

/-- C4: (1) 34 sequential no-collision resolutions from the full pools each
consume one adjective and empty the adjective pool (its size is `A = 34`)
while leaving the noun pool untouched; (2) a resolution that finds the
adjective pool empty and the noun pool non-empty pops one fallback noun
without replacement (membership and length decrease), refills the
adjective pool to the full `adjectives` list, and retries with the fallback
noun in place of the base name. -/
theorem adjective_pool_degradation :
    (∀ (base : String) (cs : List Nat), cs.length = 34 →
       (resolve_seq base cs initBags).map (fun b => (b.bag, b.alts))
         = some ([], alt_names))
    ∧ (∀ (isRunning : String → Bool) (base : String) (fuel c : Nat)
         (cs : List Nat) (bags : Bags) (sel : String),
         bags.bag = [] → bags.alts ≠ [] →
         gen_loop isRunning base (fuel + 1) (c :: cs) bags sel
             = gen_loop isRunning base fuel cs
                 ⟨adjectives, bags.alts.eraseIdx (c % bags.alts.length)⟩
                 (bags.alts.getD (c % bags.alts.length) "")
           ∧ adjectives.length = 34
           ∧ bags.alts.getD (c % bags.alts.length) "" ∈ bags.alts
           ∧ (bags.alts.eraseIdx (c % bags.alts.length)).length
               = bags.alts.length - 1) := by
  constructor
  · intro base cs hlen
    have h34 : initBags.bag.length = 34 := by decide
    obtain ⟨b', hb', hlen', halts⟩ :=
      resolve_seq_consumes base cs initBags (by rw [hlen, h34])
    have hnil : b'.bag = [] := by
      apply List.length_eq_zero.mp
      rw [hlen', h34, hlen]
    rw [hb']
    simp only [Option.map_some']
    rw [hnil, halts]
    rfl
  · intro isRunning base fuel c cs bags sel hbag halts
    have hpos : 0 < bags.alts.length := List.length_pos.mpr halts
    refine ⟨?_, by decide, getD_mem _ _ _ (Nat.mod_lt _ hpos),
      List.length_eraseIdx_of_lt (Nat.mod_lt _ hpos)⟩
    simp [gen_loop, hbag, List.isEmpty_eq_false, halts]

/-- Witness: with 34 oracle choices the pool empties; from an
empty-adjective state the next resolution falls back to a noun and refills
the bag. -/
theorem adjective_pool_degradation_witness :
    ((resolve_seq "echo" (List.replicate 34 0) initBags).map
        (fun b => (b.bag, b.alts)) = some ([], alt_names))
    ∧ gen_loop (fun _ => false) "echo" 1 [0] ⟨[], alt_names⟩ "x"
        = gen_loop (fun _ => false) "echo" 0 []
            ⟨adjectives, alt_names.eraseIdx (0 % alt_names.length)⟩
            (alt_names.getD (0 % alt_names.length) "") :=
  ⟨adjective_pool_degradation.1 "echo" _ (by simp),
   (adjective_pool_degradation.2 (fun _ => false) "echo" 0 0 [] ⟨[], alt_names⟩
      "x" rfl (by decide)).1⟩

/-! ## C5 — fail-safe termination when both pools are empty -/

/-- C5: when both pools are empty, every further iteration generates a
random alphanumeric adjective of fixed length 8, combines it with the
original base name as the noun, and produces a candidate (the loop never
runs an iteration without a candidate); whenever the candidate is not in
use the loop returns it on that very iteration. -/
theorem random_fallback_termination
    (isRunning : String → Bool) (base : String) (fuel c : Nat)
    (cs : List Nat) (bags : Bags) (sel : String)
    (hbag : bags.bag = []) (halts : bags.alts = []) :
    (gen_loop isRunning base (fuel + 1) (c :: cs) bags sel
       = if isRunning (combine (generate_random_alphanumeric_string 8 c) base)
         then gen_loop isRunning base fuel cs bags base
         else some (combine (generate_random_alphanumeric_string 8 c) base, bags))
    ∧ (generate_random_alphanumeric_string 8 c).length = 8
    ∧ (∀ ch ∈ (generate_random_alphanumeric_string 8 c).data, ch ∈ alnum_chars)
    ∧ (isRunning (combine (generate_random_alphanumeric_string 8 c) base) = false →
        gen_loop isRunning base 1 [c] bags sel
          = some (combine (generate_random_alphanumeric_string 8 c) base, bags)) := by
  refine ⟨?_, ?_, ?_, ?_⟩
  · simp [gen_loop, hbag, halts]
  · simp [generate_random_alphanumeric_string, String.length]
  · intro ch hch
    simp only [generate_random_alphanumeric_string, String.data] at hch
    obtain ⟨i, -, hi⟩ := List.mem_map.mp hch
    rw [← hi]
    refine getD_mem _ _ _ ?_
    have h62 : alnum_chars.length = 62 := by decide
    rw [h62]
    exact Nat.mod_lt _ (by norm_num)
  · intro hrun
    simp [gen_loop, hbag, halts, hrun]

/-- Witness: with both pools empty and an empty registry, one iteration
returns the random-adjective candidate immediately. -/
theorem random_fallback_termination_witness :
    gen_loop (fun _ => false) "echo" 1 [0] ⟨[], []⟩ "x"
      = some (combine (generate_random_alphanumeric_string 8 0) "echo", ⟨[], []⟩) :=
  (random_fallback_termination (fun _ => false) "echo" 0 0 [] ⟨[], []⟩ "x"
      rfl rfl).2.2.2 rfl

/-! ## C8 — stop escalation -/

/-- C8 (amended): the stop request triggered by a termination signal
carries graceful terminate with a 3000 ms bound first and forceful kill
with the same bound second, and under the collaborator's escalation
semantics the kill is not applied when the terminate already succeeded
within its bound; the unconditional post-drain `proc.stop(opt.stop)` call,
however, passes the default-constructed (all-noop) actions, not this
escalation (see the counterexample). -/
theorem sigterm_stop_escalation (exitsWithin : StopKind → Nat → Bool) :
    sigterm_stop_actions ∈ run_stop_requests true
    ∧ sigterm_stop_actions.first = ⟨StopKind.terminate, 3000⟩
    ∧ sigterm_stop_actions.second = ⟨StopKind.kill, 3000⟩
    ∧ applied_stop_actions exitsWithin sigterm_stop_actions
        = (if exitsWithin StopKind.terminate 3000 then [StopKind.terminate]
           else [StopKind.terminate, StopKind.kill]) := by
  refine ⟨by simp [run_stop_requests], rfl, rfl, ?_⟩
  simp only [applied_stop_actions, sigterm_stop_actions, noop_action]
  by_cases h : exitsWithin StopKind.terminate 3000 = true
  · simp [h, stop_escalation]
  · rw [Bool.not_eq_true] at h
    by_cases h2 : exitsWithin StopKind.kill 3000 = true
    · simp [h, h2, stop_escalation]
    · rw [Bool.not_eq_true] at h2
      simp [h, h2, stop_escalation]

/-- C8 counterexample: the post-drain stop request (issued on every run,
with or without a signal) is the default-constructed `opt.stop`, whose
first action is not a graceful terminate — on a child that never exits by
itself it applies no action at all, so not every stop request attempts the
terminate-3000ms/kill-3000ms escalation. -/
theorem post_drain_stop_request_counterexample :
    default_options_stop ∈ run_stop_requests false
    ∧ default_options_stop.first.action ≠ StopKind.terminate
    ∧ applied_stop_actions (fun _ _ => false) default_options_stop = [] := by
  decide

/-- A concrete run configuration: one unrelated record in the registry, an
explicit process name `foo` not in use, registration possible. -/
def sampleInputs : RunInputs :=
  { dir := [⟨"7", ".json", true, some ⟨"curious_echo", ["echo"], "/env"⟩⟩]
    specific_process_name := "foo"
    base_name := "echo"
    raw_command := ["echo", "hi"]
    target_pfx := "/env"
    supervisor_pid := 42
    child_pid := 43
    lock_ok := true
    dir_ok := true
    spawn_ok := true
    child_status := 0
    fuel := 1
    choices := [0]
    bags := initBags }

/-- The same run but with the proc directory missing/unwritable at
registration time (empty registry so the resolution succeeds likewise). -/
def untrackedInputs : RunInputs :=
  { sampleInputs with dir := [], dir_ok := false }

/-! ## C2 — lock discipline around the spawn -/

/-- C2 (amended): on the registration path (`dir_ok`, i.e. the proc
directory is a writable directory so a `ScopedProcFile` is constructed),
the directory lock is moved into the record constructor and released at
its end, before the child is spawned: no spawn event happens while the
lock is held.  On the untracked path the lock object survives the whole
block, so the claim's unconditional form fails (see the
counterexample). -/
theorem lock_released_before_spawn_when_registered (inp : RunInputs)
    (h : inp.dir_ok = true) :
    spawn_while_locked (run_in_environment inp).trace false = false := by
  unfold run_in_environment
  split
  · simp [spawn_while_locked]
  · split
    · simp [spawn_while_locked]
    · split
      · simp [spawn_while_locked]
      · simp [spawn_while_locked]
      · simp only [h, if_true]
        cases hsp : inp.spawn_ok <;> simp [spawn_while_locked, hsp]

/-- Witness: a registered run (writable proc dir) spawns only after the
lock is released. -/
theorem lock_released_before_spawn_witness :
    spawn_while_locked (run_in_environment sampleInputs).trace false = false :=
  lock_released_before_spawn_when_registered sampleInputs rfl

/-- C2 counterexample: when the proc dir is not a writable directory
(`dir_ok = false`) no `ScopedProcFile` is constructed, the still-held lock
object lives to the end of the block, and the child is spawned while the
supervisor holds the directory lock — the trace releases the lock only
after the child exits. -/
theorem spawn_under_lock_counterexample :
    spawn_while_locked (run_in_environment untrackedInputs).trace false = true
    ∧ (run_in_environment untrackedInputs).trace
        = [RunEvent.lockAcquired, RunEvent.nameResolved "foo",
           RunEvent.childSpawned 43, RunEvent.childExited 0,
           RunEvent.lockReleased] := by
  decide

/-! ## C6 — explicit process name -/

/-- C6: if the caller supplies an explicit name that is already in use,
the run fails with an error naming the conflicting process, before any
record is written and before any child is spawned, and the registry is
untouched; if the explicit name is not in use it becomes the resolved name
verbatim. -/
theorem explicit_name_collision_fails (inp : RunInputs)
    (hok : listingOk (get_all_running_processes_info (fun _ => true) inp.dir) = true)
    (hlk : inp.lock_ok = true)
    (hne : inp.specific_process_name ≠ "") :
    (dirHasName inp.dir inp.specific_process_name = true →
       (run_in_environment inp).result
           = Except.error ("Another process with name '"
               ++ inp.specific_process_name ++ "' is currently running.")
         ∧ (∀ p n, RunEvent.recordWritten p n ∉ (run_in_environment inp).trace)
         ∧ (∀ p, RunEvent.childSpawned p ∉ (run_in_environment inp).trace)
         ∧ (run_in_environment inp).dirAfter = inp.dir)
    ∧ (dirHasName inp.dir inp.specific_process_name = false →
         RunEvent.nameResolved inp.specific_process_name
           ∈ (run_in_environment inp).trace) := by
  cases hls : get_all_running_processes_info (fun _ => true) inp.dir with
  | error msg => rw [hls] at hok; simp [listingOk] at hok
  | ok l =>
    constructor
    · intro hrun
      have hres : name_resolution inp
          = .error ("Another process with name '" ++ inp.specific_process_name
              ++ "' is currently running.") := by
        unfold name_resolution
        rw [if_neg hne, if_pos hrun]
      simp only [run_in_environment, hls, hlk, hres]
      refine ⟨rfl, ?_, ?_, rfl⟩ <;> intros <;> simp
    · intro hrun
      have hres : name_resolution inp
          = .ok (some (inp.specific_process_name, inp.bags)) := by
        unfold name_resolution
        rw [if_neg hne, if_neg (by simp [hrun])]
      simp only [run_in_environment, hls, hlk, hres]
      simp

/-- Witness: requesting the explicit name `curious_echo` while the
registry holds a record of that name fails with the error naming it;
requesting the free name `foo` resolves to `foo` verbatim. -/
theorem explicit_name_collision_witness :
    (run_in_environment
        { sampleInputs with specific_process_name := "curious_echo" }).result
      = Except.error "Another process with name 'curious_echo' is currently running."
    ∧ RunEvent.nameResolved "foo" ∈ (run_in_environment sampleInputs).trace :=
  ⟨((explicit_name_collision_fails
      { sampleInputs with specific_process_name := "curious_echo" }
      (by decide) rfl (by decide)).1 (by decide)).1,
   (explicit_name_collision_fails sampleInputs
      (by decide) rfl (by decide)).2 (by decide)⟩

/-- Whenever the initial listing, the lock and the name resolution
succeed, the run returns the child's status (or 1 on spawn failure),
independently of the registration path. -/
theorem run_result_formula (inp : RunInputs) (l : List ListedRecord)
    (nm : String) (b : Bags)
    (hls : get_all_running_processes_info (fun _ => true) inp.dir = .ok l)
    (hlk : inp.lock_ok = true)
    (hres : name_resolution inp = .ok (some (nm, b))) :
    (run_in_environment inp).result
      = Except.ok (if inp.spawn_ok then inp.child_status else 1) := by
  simp only [run_in_environment, hls, hlk, hres]
  simp

/-! ## C10 — untracked run when the proc dir is unusable -/

/-- C10: if at registration time the proc directory is not a (writable)
directory, no record is written and no error is raised: the child is
spawned and supervised untracked and the run returns the child's exit
status, exactly as the tracked run with the same inputs would. -/
theorem untracked_run_same_status (inp : RunInputs) (nm : String) (b : Bags)
    (hok : listingOk (get_all_running_processes_info (fun _ => true) inp.dir) = true)
    (hlk : inp.lock_ok = true)
    (hres : name_resolution inp = .ok (some (nm, b)))
    (hdir : inp.dir_ok = false) (hsp : inp.spawn_ok = true) :
    (run_in_environment inp).result = Except.ok inp.child_status
    ∧ (∀ p n, RunEvent.recordWritten p n ∉ (run_in_environment inp).trace)
    ∧ (run_in_environment inp).dirAfter = inp.dir
    ∧ RunEvent.childSpawned inp.child_pid ∈ (run_in_environment inp).trace
    ∧ (run_in_environment { inp with dir_ok := true }).result
        = Except.ok inp.child_status := by
  cases hls : get_all_running_processes_info (fun _ => true) inp.dir with
  | error msg => rw [hls] at hok; simp [listingOk] at hok
  | ok l =>
    have hls' : get_all_running_processes_info (fun _ => true)
        ({ inp with dir_ok := true } : RunInputs).dir = .ok l := hls
    have hres' : name_resolution { inp with dir_ok := true }
        = .ok (some (nm, b)) := hres
    have hlk' : ({ inp with dir_ok := true } : RunInputs).lock_ok = true := hlk
    refine ⟨?_, ?_, ?_, ?_, ?_⟩
    · rw [run_result_formula inp l nm b hls hlk hres, hsp]
      simp
    · intro p n
      simp [run_in_environment, hls, hlk, hres, hsp, hdir]
    · simp [run_in_environment, hls, hlk, hres, hdir]
    · simp [run_in_environment, hls, hlk, hres, hsp, hdir]
    · rw [run_result_formula { inp with dir_ok := true } l nm b hls' hlk' hres']
      have h5 : ({ inp with dir_ok := true } : RunInputs).spawn_ok = true := hsp
      rw [h5]
      simp

/-- Witness: the sample run with the proc dir unusable returns the child's
status 0 untracked. -/
theorem untracked_run_witness :
    (run_in_environment { sampleInputs with dir_ok := false }).result
      = Except.ok 0 :=
  (untracked_run_same_status { sampleInputs with dir_ok := false } "foo"
      initBags (by decide) rfl rfl rfl rfl).1

/-- A successful listing of a concatenation splits into successful
listings of the parts. -/
theorem listing_append_split (f : ListedRecord → Bool) :
    ∀ (d1 d2 : List FsEntry) (l : List ListedRecord),
      get_all_running_processes_info f (d1 ++ d2) = .ok l →
      ∃ l1 l2, get_all_running_processes_info f d1 = .ok l1
        ∧ get_all_running_processes_info f d2 = .ok l2 ∧ l = l1 ++ l2 := by
  intro d1
  induction d1 with
  | nil => intro d2 l h; exact ⟨[], l, rfl, h, rfl⟩
  | cons e rest ih =>
    intro d2 l h
    rw [List.cons_append] at h
    by_cases hext : e.ext = ".json"
    · by_cases hread : e.readable = true
      · cases hc : e.content with
        | none =>
          rw [listing_cons_corrupt _ e _ hext hread hc] at h
          exact absurd h (by simp)
        | some r =>
          rw [listing_cons_parsed _ e _ r hext hread hc] at h
          revert h
          cases hrd : get_all_running_processes_info f (rest ++ d2) with
          | error msg => intro h; exact absurd h (by simp)
          | ok L =>
            intro h
            simp only [Except.ok.injEq] at h
            obtain ⟨l1, l2, h1, h2, rfl⟩ := ih d2 L hrd
            refine ⟨if f (attach_pid e r) then attach_pid e r :: l1 else l1,
              l2, ?_, h2, ?_⟩
            · rw [listing_cons_parsed _ e rest r hext hread hc, h1]
            · by_cases hf : f (attach_pid e r) = true
              · simp [hf] at h ⊢
                exact h.symm
              · rw [Bool.not_eq_true] at hf
                simp [hf] at h ⊢
                exact h.symm
      · rw [Bool.not_eq_true] at hread
        rw [listing_cons_skip_unreadable _ e _ hread] at h
        obtain ⟨l1, l2, h1, h2, rfl⟩ := ih d2 l h
        exact ⟨l1, l2, by rw [listing_cons_skip_unreadable _ e rest hread]; exact h1,
          h2, rfl⟩
    · rw [listing_cons_skip_ext _ e _ hext] at h
      obtain ⟨l1, l2, h1, h2, rfl⟩ := ih d2 l h
      exact ⟨l1, l2, by rw [listing_cons_skip_ext _ e rest hext]; exact h1, h2, rfl⟩

/-- `e` holds a parseable record that does not carry exactly the given
`name`/`command`/`prefix` triple. -/
def no_matching_record (name : String) (cmd : List String) (pfx : String)
    (e : FsEntry) : Bool :=
  match e.content with
  | none => false
  | some r => !(r.name == name && r.command == cmd && r.pfx == pfx)

/-- The fresh record file written for this process lists as exactly one
record carrying the stored triple and the filename-derived `pid`. -/
theorem listing_singleton_record (pid : Nat) (name : String)
    (cmd : List String) (pfx : String) :
    get_all_running_processes_info (fun _ => true)
        [⟨toString pid, ".json", true, some ⟨name, cmd, pfx⟩⟩]
      = .ok [⟨name, cmd, pfx, toString pid⟩] := by
  rw [listing_cons_parsed (fun _ => true) _ [] ⟨name, cmd, pfx⟩ rfl rfl rfl]
  simp [get_all_running_processes_info, attach_pid]

/-! ## C7 — record round-trip -/

/-- C7: writing a registry record with a given name, command and prefix
into a registry whose other records all parse and none of which carries
the same triple, then listing, yields exactly one record with those three
fields, plus the synthetic `pid` equal to the filename without its `.json`
extension; the stored file itself holds only the three fields (no `pid`). -/
theorem record_roundtrip (dir : List FsEntry) (pid : Nat) (name : String)
    (cmd : List String) (pfx : String)
    (h : ∀ e ∈ dir, e.ext = ".json" → e.readable = true →
           no_matching_record name cmd pfx e = true) :
    listingOk (get_all_running_processes_info (fun _ => true)
        (scoped_proc_file_write dir pid name cmd pfx)) = true
    ∧ (listing_or_nil (scoped_proc_file_write dir pid name cmd pfx)).filter
        (fun x => x.name == name && x.command == cmd && x.pfx == pfx)
        = [⟨name, cmd, pfx, toString pid⟩]
    ∧ (⟨toString pid, ".json", true, some ⟨name, cmd, pfx⟩⟩ : FsEntry)
        ∈ scoped_proc_file_write dir pid name cmd pfx := by
  have hmem : ∀ e ∈ dir.filter
      (fun e => !(e.stem == toString pid && e.ext == ".json")), e ∈ dir :=
    fun e he => (List.mem_filter.mp he).1
  have hwf0 : WFdir (dir.filter
      (fun e => !(e.stem == toString pid && e.ext == ".json"))) := by
    intro e he hext hread
    have hno := h e (hmem e he) hext hread
    cases hc : e.content with
    | none => rw [no_matching_record, hc] at hno; simp at hno
    | some r => simp [hc]
  obtain ⟨l0, hl0⟩ := listing_ok_of_WF (fun _ => true) _ hwf0
  have happ := listing_append_ok (fun _ => true) _ l0 _ _ hl0
    (listing_singleton_record pid name cmd pfx)
  have heq : scoped_proc_file_write dir pid name cmd pfx
      = dir.filter (fun e => !(e.stem == toString pid && e.ext == ".json"))
        ++ [⟨toString pid, ".json", true, some ⟨name, cmd, pfx⟩⟩] := rfl
  have hl0nil : l0.filter
      (fun x => x.name == name && x.command == cmd && x.pfx == pfx) = [] := by
    refine List.filter_eq_nil_iff.mpr ?_
    intro x hx
    obtain ⟨e, he, hext, hread, r, hc, hxeq, -⟩ :=
      listing_mem_source (fun _ => true) _ l0 hl0 x hx
    have hno := h e (hmem e he) hext hread
    rw [no_matching_record, hc] at hno
    subst hxeq
    simp only [attach_pid, Bool.not_eq_true] at hno ⊢
    simp only [Bool.not_eq_true'] at hno
    simp [hno]
  refine ⟨?_, ?_, ?_⟩
  · rw [heq, happ]
    rfl
  · rw [heq]
    unfold listing_or_nil
    rw [happ]
    show (l0 ++ [(⟨name, cmd, pfx, toString pid⟩ : ListedRecord)]).filter
      (fun x => x.name == name && x.command == cmd && x.pfx == pfx)
      = [(⟨name, cmd, pfx, toString pid⟩ : ListedRecord)]
    rw [List.filter_append, hl0nil]
    simp
  · rw [heq]
    exact List.mem_append_right _ (List.mem_singleton_self _)

/-- Witness: a registry holding one unrelated record round-trips a freshly
written record (`pid` 42). -/
theorem record_roundtrip_witness :
    listingOk (get_all_running_processes_info (fun _ => true)
        (scoped_proc_file_write [⟨"9", ".json", true, some ⟨"other", ["ls"], "/env"⟩⟩]
          42 "curious_echo" ["echo", "hi"] "/env")) = true
    ∧ (listing_or_nil (scoped_proc_file_write
          [⟨"9", ".json", true, some ⟨"other", ["ls"], "/env"⟩⟩]
          42 "curious_echo" ["echo", "hi"] "/env")).filter
        (fun x => x.name == "curious_echo" && x.command == ["echo", "hi"]
          && x.pfx == "/env")
        = [⟨"curious_echo", ["echo", "hi"], "/env", toString 42⟩]
    ∧ (⟨toString 42, ".json", true,
          some ⟨"curious_echo", ["echo", "hi"], "/env"⟩⟩ : FsEntry)
        ∈ scoped_proc_file_write [⟨"9", ".json", true, some ⟨"other", ["ls"], "/env"⟩⟩]
          42 "curious_echo" ["echo", "hi"] "/env" :=
  record_roundtrip _ 42 "curious_echo" ["echo", "hi"] "/env" (by decide)

/-! ## C9 — the record is named after the supervisor -/

/-- C9: the registry record created for a run is filed under the
supervising process's own pid (`getpid()`), not the spawned child's pid:
every record-write event carries the supervisor pid, the directory gains
`<supervisor_pid>.json`, no record is filed under the child pid when it
differs, and the `pid` the listing attaches to the new record is the
supervisor's. -/
theorem record_named_after_supervisor (inp : RunInputs) (nm : String) (b : Bags)
    (hok : listingOk (get_all_running_processes_info (fun _ => true) inp.dir) = true)
    (hlk : inp.lock_ok = true)
    (hres : name_resolution inp = .ok (some (nm, b)))
    (hdir : inp.dir_ok = true) :
    (∀ p m, RunEvent.recordWritten p m ∈ (run_in_environment inp).trace →
        p = inp.supervisor_pid ∧ m = nm)
    ∧ (run_in_environment inp).dirAfter
        = scoped_proc_file_write inp.dir inp.supervisor_pid nm
            inp.raw_command inp.target_pfx
    ∧ (⟨toString inp.supervisor_pid, ".json", true,
          some ⟨nm, inp.raw_command, inp.target_pfx⟩⟩ : FsEntry)
        ∈ (run_in_environment inp).dirAfter
    ∧ (inp.child_pid ≠ inp.supervisor_pid →
        ∀ m, RunEvent.recordWritten inp.child_pid m ∉ (run_in_environment inp).trace)
    ∧ (∀ l', get_all_running_processes_info (fun _ => true)
          (run_in_environment inp).dirAfter = .ok l' →
        (⟨nm, inp.raw_command, inp.target_pfx,
            toString inp.supervisor_pid⟩ : ListedRecord) ∈ l') := by
  cases hls : get_all_running_processes_info (fun _ => true) inp.dir with
  | error msg => rw [hls] at hok; simp [listingOk] at hok
  | ok l =>
    have h1 : ∀ p m, RunEvent.recordWritten p m ∈ (run_in_environment inp).trace →
        p = inp.supervisor_pid ∧ m = nm := by
      intro p m
      cases hsp : inp.spawn_ok <;>
        · simp only [run_in_environment, hls, hlk, hres, hdir, hsp]
          simp +contextual [eq_comm]
    have h2 : (run_in_environment inp).dirAfter
        = scoped_proc_file_write inp.dir inp.supervisor_pid nm
            inp.raw_command inp.target_pfx := by
      simp [run_in_environment, hls, hlk, hres, hdir]
    refine ⟨h1, h2, ?_, ?_, ?_⟩
    · rw [h2]
      exact List.mem_append_right _ (List.mem_singleton_self _)
    · intro hneq m hm
      exact hneq ((h1 _ _ hm).1)
    · intro l' hl'
      rw [h2] at hl'
      obtain ⟨l1, l2, -, hsplit2, rfl⟩ :=
        listing_append_split (fun _ => true) _ _ _ hl'
      rw [listing_singleton_record inp.supervisor_pid nm inp.raw_command
        inp.target_pfx] at hsplit2
      simp only [Except.ok.injEq] at hsplit2
      subst hsplit2
      exact List.mem_append_right _ (List.mem_singleton_self _)

/-- Witness: in the sample run (supervisor pid 42, child pid 43) the
record is filed under 42, not 43. -/
theorem record_named_after_supervisor_witness :
    (run_in_environment sampleInputs).dirAfter
      = scoped_proc_file_write sampleInputs.dir 42 "foo" ["echo", "hi"] "/env" :=
  (record_named_after_supervisor sampleInputs "foo" initBags
      (by decide) rfl rfl rfl).2.1

end MambaRun
